import Mathlib

/-!
Verification of the status-parsing and message-synthesis pipeline of the
`gitcommitmessage` repository.

The definitions below are a shallow embedding of the TypeScript source:

* `parseStatus`, `getChangedFiles`, `buildSimpleMessage` from the commit-message
  module (`src/lib/logger.ts`, message section),
* `CONSTANTS.MAX_FILE_SAMPLES` from the constants module (`src/unnamed/part_001`),
* `plural` from the utils module (`src/unnamed/part_002`).

JavaScript strings are modelled as Lean `String` (a list of characters;
JS UTF-16 code-unit indexing and codepoint indexing agree on all inputs
without astral-plane characters).  JS numbers holding integers are modelled
as `Int` (exact; JS doubles only diverge beyond 2^53, i.e. on counts or
digit strings far outside any real status output).  The JS helpier functions
(`split`, `trim`, `slice`, `startsWith`, the two regexes) are given explicit
executable models with JS semantics, named with a `js` prefixed spelling.
-/

namespace Gcm

/-- Character class of the JS regex `\s` (the members relevant to status text;
the exotic Unicode space characters are included for fidelity). -/
def isJsWs (c : Char) : Bool :=
  c = ' ' || c = '\t' || c = '\n' || c = '\x0b' || c = '\x0c' || c = '\r' ||
  c = ' ' || c = ' ' || c = ' ' || c = ' ' || c = ' ' ||
  c = ' ' || c = '　' || c = '﻿' ||
  (' ' ≤ c && c ≤ ' ')

/-- JS `String.prototype.trim` (drop leading and trailing whitespace). -/
def jsTrim (s : String) : String :=
  String.mk (((s.data.dropWhile isJsWs).reverse.dropWhile isJsWs).reverse)

/-- JS `String.prototype.slice(n)` for a non-negative start index. -/
def jsSlice (s : String) (n : Nat) : String :=
  String.mk (s.data.drop n)

/-- JS `String.prototype.startsWith`. -/
def jsStartsWith (s p : String) : Bool :=
  p.data.isPrefixOf s.data

/-- Splitter for `output.split(/\r?\n/)`: a separator is `"\r\n"` or `"\n"`;
a lone `"\r"` stays inside its line.  The accumulator holds the current line
reversed. -/
def splitNlGo : List Char → List Char → List String
  | [], cur => [String.mk cur.reverse]
  | '\n' :: rest, cur =>
    (match cur with
     | '\r' :: cur2 => String.mk cur2.reverse
     | _ => String.mk cur.reverse) :: splitNlGo rest []
  | c :: rest, cur => splitNlGo rest (c :: cur)

/-- `output.split(/\r?\n/).filter(Boolean)` from `parseStatus`. -/
def jsLines (s : String) : List String :=
  (splitNlGo s.data []).filter (fun l => l != "")

mutual

/-- Splitter for `line.split(/\s+/)`: accumulating a token (`cur` is the
current token reversed). -/
def splitWsGo : List Char → List Char → List String
  | [], cur => [String.mk cur.reverse]
  | c :: cs, cur =>
    if isJsWs c then String.mk cur.reverse :: splitWsSkip cs
    else splitWsGo cs (c :: cur)

/-- Splitter for `line.split(/\s+/)`: inside a whitespace run.  A run that
reaches the end of the string contributes a trailing empty field, as in JS. -/
def splitWsSkip : List Char → List String
  | [] => [""]
  | c :: cs => if isJsWs c then splitWsSkip cs else splitWsGo cs [c]

end

/-- JS `line.split(/\s+/)`. -/
def jsSplitWs (s : String) : List String :=
  splitWsGo s.data []

/-- `CONSTANTS.MAX_FILE_SAMPLES` from the constants module. -/
def MAX_FILE_SAMPLES : Nat := 10

/-- Staged counters of a `StatusSummary` (`staged` field). -/
structure StagedCounts where
  added : Int
  modified : Int
  deleted : Int
  renamed : Int
  copied : Int
deriving Repr, DecidableEq

/-- Unstaged counters of a `StatusSummary` (`unstaged` field). -/
structure UnstagedCounts where
  modified : Int
  deleted : Int
deriving Repr, DecidableEq

/-- Sample buckets of a `StatusSummary` (`samples` field). -/
structure Samples where
  added : List String
  modified : List String
  deleted : List String
  renamed : List String
  untracked : List String
deriving Repr, DecidableEq

/-- The `StatusSummary` interface from the commit-message module. -/
structure StatusSummary where
  branch : Option String
  ahead : Int
  behind : Int
  staged : StagedCounts
  unstaged : UnstagedCounts
  untracked : Int
  conflicts : Int
  samples : Samples
deriving Repr, DecidableEq

/-- The `MessageOptions` interface; only `stagedOnly` is read by
`buildSimpleMessage` (the `commit`, `simple`, `verbose` and `template` fields
are consumed elsewhere and do not influence the modelled functions). -/
structure MessageOptions where
  stagedOnly : Bool := false
deriving Repr, DecidableEq

/-- The freshly initialised summary at the top of `parseStatus`. -/
def initialSummary : StatusSummary :=
  { branch := none, ahead := 0, behind := 0,
    staged := ⟨0, 0, 0, 0, 0⟩, unstaged := ⟨0, 0⟩,
    untracked := 0, conflicts := 0,
    samples := ⟨[], [], [], [], []⟩ }

/-- The sample-capture idiom of `parseStatus`: push onto a bucket only while
its length is below `MAX_FILE_SAMPLES`. -/
def pushSample (l : List String) (f : String) : List String :=
  if l.length < MAX_FILE_SAMPLES then l ++ [f] else l

/-- The renamed/copied sample text: `` `${origPath} -> ${filePath}` `` when an
original path was captured, otherwise the current path alone. -/
def renSample (origPath : Option String) (filePath : String) : String :=
  match origPath with
  | some o => o ++ " -> " ++ filePath
  | none => filePath

/-- Leading-sign step of the regex captures `(-?\d+)` in
`/\+(-?\d+)\s+\-(-?\d+)/`: consume one optional `'-'`. -/
def absign : List Char → Bool × List Char
  | '-' :: r => (true, r)
  | r => (false, r)

/-- Decimal value of a digit run. -/
def digitsVal (ds : List Char) : Nat :=
  ds.foldl (fun a c => a * 10 + (c.toNat - '0'.toNat)) 0

/-- `parseInt` applied to an optionally `-`-signed digit capture. -/
def signedVal (sgn : Bool) (ds : List Char) : Int :=
  if sgn then -(digitsVal ds : Int) else (digitsVal ds : Int)

/-- Attempt of the regex `/\+(-?\d+)\s+\-(-?\d+)/` at the head of the text:
`'+'`, a signed digit run, at least one whitespace, `'-'`, a signed digit run.
The pattern is deterministic (no productive backtracking exists), so
maximal-munch runs model it exactly. -/
def matchAbAt (cs : List Char) : Option (Int × Int) :=
  match cs with
  | '+' :: r0 =>
    let s1 := absign r0
    let d1 := s1.2.takeWhile Char.isDigit
    let r1 := s1.2.dropWhile Char.isDigit
    if d1.isEmpty then none
    else
      let w := r1.takeWhile isJsWs
      let r2 := r1.dropWhile isJsWs
      if w.isEmpty then none
      else
        match r2 with
        | '-' :: r3 =>
          let s2 := absign r3
          let d2 := s2.2.takeWhile Char.isDigit
          if d2.isEmpty then none
          else some (signedVal s1.1 d1, signedVal s2.1 d2)
        | _ => none
  | _ => none

/-- Unanchored (leftmost) search of `/\+(-?\d+)\s+\-(-?\d+)/`, as performed by
`ab.match(...)` in `parseStatus`. -/
def searchAb : List Char → Option (Int × Int)
  | [] => none
  | c :: cs =>
    match matchAbAt (c :: cs) with
    | some r => some r
    | none => searchAb cs

/-- The staged block of the kind-`1`/`2` branch of `parseStatus`: dispatch on
the index status character `X`. -/
def applyIndex (sum : StatusSummary) (ix : Char) (filePath : String)
    (origPath : Option String) : StatusSummary :=
  if ix = 'A' then
    { sum with staged := { sum.staged with added := sum.staged.added + 1 },
               samples := { sum.samples with
                 added := pushSample sum.samples.added filePath } }
  else if ix = 'M' then
    { sum with staged := { sum.staged with modified := sum.staged.modified + 1 },
               samples := { sum.samples with
                 modified := pushSample sum.samples.modified filePath } }
  else if ix = 'D' then
    { sum with staged := { sum.staged with deleted := sum.staged.deleted + 1 },
               samples := { sum.samples with
                 deleted := pushSample sum.samples.deleted filePath } }
  else if ix = 'R' then
    { sum with staged := { sum.staged with renamed := sum.staged.renamed + 1 },
               samples := { sum.samples with
                 renamed := pushSample sum.samples.renamed (renSample origPath filePath) } }
  else if ix = 'C' then
    { sum with staged := { sum.staged with copied := sum.staged.copied + 1 },
               samples := { sum.samples with
                 renamed := pushSample sum.samples.renamed (renSample origPath filePath) } }
  else sum

/-- The unstaged block of the kind-`1`/`2` branch of `parseStatus`: dispatch on
the worktree status character `Y`. -/
def applyWorktree (sum : StatusSummary) (wt : Char) (filePath : String) :
    StatusSummary :=
  if wt = 'M' then
    { sum with unstaged := { sum.unstaged with modified := sum.unstaged.modified + 1 },
               samples := { sum.samples with
                 modified := pushSample sum.samples.modified filePath } }
  else if wt = 'D' then
    { sum with unstaged := { sum.unstaged with deleted := sum.unstaged.deleted + 1 },
               samples := { sum.samples with
                 deleted := pushSample sum.samples.deleted filePath } }
  else sum

/-- The kind-`1`/`2` branch of `parseStatus`, applied to the already split
fields of the line.  The locals of the source are inlined: `xy` is
`parts.getD 1 ""`, `filePath` is the last field, `origPath` is the
second-to-last field for kind-`2` lines with at least three fields, and the
`X`/`Y` characters are the first two characters of `xy`. -/
def processEntry (sum : StatusSummary) (type : Char) (parts : List String) :
    StatusSummary :=
  if parts.length < 2 then sum
  else if (parts.getD 1 "").length < 2 then sum
  else
    applyWorktree
      (applyIndex sum ((parts.getD 1 "").data.getD 0 ' ') (parts.getLastD "")
        (if type = '2' ∧ 3 ≤ parts.length then some (parts.getD (parts.length - 2) "")
         else none))
      ((parts.getD 1 "").data.getD 1 ' ') (parts.getLastD "")

/-- One iteration of the `for (const line of lines)` loop of `parseStatus`. -/
def stepLine (sum : StatusSummary) (line : String) : StatusSummary :=
  if jsStartsWith line "# " then
    if jsStartsWith line "# branch.head " then
      { sum with branch := some (jsTrim (jsSlice line 14)) }
    else if jsStartsWith line "# branch.ab " then
      match searchAb (jsTrim (jsSlice line 12)).data with
      | some ab => { sum with ahead := ab.1, behind := ab.2 }
      | none => sum
    else sum
  else
    match line.data.head? with
    | none => sum
    | some type =>
      if type = '?' then
        { sum with untracked := sum.untracked + 1,
                   samples := { sum.samples with
                     untracked := pushSample sum.samples.untracked (jsSlice line 2) } }
      else if type = '!' then sum
      else if type = 'u' then { sum with conflicts := sum.conflicts + 1 }
      else if type = '1' ∨ type = '2' then processEntry sum type (jsSplitWs line)
      else sum

/-- `parseStatus` from the commit-message module. -/
def parseStatus (output : String) : StatusSummary :=
  (jsLines output).foldl stepLine initialSummary

/-- `plural` from the utils module. -/
def plural (n : Int) (word : String) : String :=
  toString n ++ " " ++ word ++ (if n = 1 then "" else "s")

/-- The `addPart` closure of `buildSimpleMessage`. -/
def addPart (parts : List String) (n : Int) (label : String) : List String :=
  if 0 < n then parts ++ [plural n label] else parts

/-- The `includeStaged` flag of `buildSimpleMessage`. -/
def includeStaged (sum : StatusSummary) (opts : MessageOptions) : Bool :=
  opts.stagedOnly ||
    decide (0 < sum.staged.added + sum.staged.modified + sum.staged.deleted +
      sum.staged.renamed + sum.staged.copied)

/-- The `parts` array of `buildSimpleMessage` after both `addPart` blocks. -/
def titleParts (sum : StatusSummary) (opts : MessageOptions) : List String :=
  let p1 :=
    if includeStaged sum opts then
      addPart (addPart (addPart (addPart [] sum.staged.added "added")
        sum.staged.modified "modified") sum.staged.deleted "deleted")
        (sum.staged.renamed + sum.staged.copied) "renamed"
    else []
  if opts.stagedOnly then p1
  else
    addPart (addPart (addPart (addPart p1 sum.unstaged.modified "modified (unstaged)")
      sum.unstaged.deleted "deleted (unstaged)") sum.untracked "untracked")
      sum.conflicts "conflict"

/-- The `scope` string of `buildSimpleMessage` (empty both when no branch is
known and when the captured branch name is the empty string, which is falsy
in JS). -/
def scopeOf (sum : StatusSummary) : String :=
  match sum.branch with
  | some b => if b = "" then "" else "on " ++ b
  | none => ""

/-- The `ab` suffix of `buildSimpleMessage`; JS truthiness of
`summary.ahead || summary.behind` means "either value is non-zero". -/
def abSegment (sum : StatusSummary) : String :=
  if sum.ahead ≠ 0 ∨ sum.behind ≠ 0 then
    ", ahead " ++ toString sum.ahead ++ ", behind " ++ toString sum.behind
  else ""

/-- The `titleCore` string of `buildSimpleMessage`. -/
def titleCore (sum : StatusSummary) (opts : MessageOptions) : String :=
  let parts := titleParts sum opts
  if parts.length ≠ 0 then String.intercalate ", " parts else "no changes"

/-- The `title` string of `buildSimpleMessage`. -/
def titleOf (sum : StatusSummary) (opts : MessageOptions) : String :=
  titleCore sum opts ++ (if scopeOf sum ≠ "" then " — " ++ scopeOf sum else "") ++
    abSegment sum

/-- The `limitList` closure of `buildSimpleMessage`: truncate a sample list at
`MAX_FILE_SAMPLES` and report how many entries were cut off.  Note that it is
applied to the (already capped) sample lists, not to the counters. -/
def limitList (l : List String) : List String × Nat :=
  if MAX_FILE_SAMPLES < l.length then
    (l.take MAX_FILE_SAMPLES, l.length - MAX_FILE_SAMPLES)
  else (l, 0)

/-- One body line of `buildSimpleMessage` (the repeated
`` `label: ${join}${more ? ... : ''}` `` push, guarded by a non-empty
truncated list), as a zero- or one-element list. -/
def catLine (label : String) (l : List String) : List String :=
  let L := limitList l
  if L.1.length ≠ 0 then
    [label ++ ": " ++ String.intercalate ", " L.1 ++
      (if L.2 ≠ 0 then " (+" ++ toString L.2 ++ " more)" else "")]
  else []

/-- The `bodyParts` array of `buildSimpleMessage`. -/
def bodyParts (sum : StatusSummary) (opts : MessageOptions) : List String :=
  catLine "added" sum.samples.added ++ catLine "modified" sum.samples.modified ++
  catLine "deleted" sum.samples.deleted ++ catLine "renamed" sum.samples.renamed ++
  (if opts.stagedOnly then [] else catLine "untracked" sum.samples.untracked)

/-- `buildSimpleMessage` from the commit-message module. -/
def buildSimpleMessage (sum : StatusSummary) (opts : MessageOptions) : String :=
  let bp := bodyParts sum opts
  if bp.length ≠ 0 then titleOf sum opts ++ "\n\n" ++ String.intercalate "\n" bp
  else titleOf sum opts

/-- JS `Set.prototype.add` on an insertion-ordered set modelled as a
duplicate-free list. -/
def addToSet (files : List String) (f : String) : List String :=
  if f ∈ files then files else files ++ [f]

/-- A `forEach(f => files.add(f))` loop of `getChangedFiles`. -/
def addAll (files : List String) (fs : List String) : List String :=
  fs.foldl addToSet files

/-- The characters the JS regex `.` does not match (without the `s` flag):
the four line terminators `\n`, `\r`, U+2028 and U+2029. -/
def isJsLineTerm (c : Char) : Bool :=
  c = '\n' || c = '\r' || c = ' ' || c = ' '

/-- Tail of the rename regex `/^(.+?)\s*->\s*(.+)$/` after the lazy group:
optional whitespace, the literal `"->"`, optional whitespace, then a final
non-empty line-terminator-free capture (JS `.` matches neither `\n`, `\r`,
U+2028 nor U+2029).  Backtracking of the trailing `\s*` against `(.+)$` is
resolved exactly as the JS engine does: the greedy whitespace run gives back
at most its final character, and a line terminator anywhere in the candidate
capture kills every remaining alternative. -/
def renTail (cs : List Char) : Option String :=
  match cs.dropWhile isJsWs with
  | '-' :: '>' :: after =>
    let rem := after.dropWhile isJsWs
    if rem.isEmpty then
      match (after.takeWhile isJsWs).getLast? with
      | some lc => if isJsLineTerm lc then none else some (String.mk [lc])
      | none => none
    else if rem.any isJsLineTerm then none else some (String.mk rem)
  | _ => none

/-- Lazy search for the shortest non-empty line-terminator-free first group of
`/^(.+?)\s*->\s*(.+)$/`; `acc` is the group read so far, reversed.  When the
next character is a line terminator no longer first group can match (shorter
groups, for which the terminator falls into `\s*`, were already tried), as
with the JS engine. -/
def renGo (acc : List Char) (cs : List Char) : Option (String × String) :=
  match cs with
  | [] => none
  | c :: rest =>
    if isJsLineTerm c then none
    else
      match renTail rest with
      | some g2 => some (String.mk (c :: acc).reverse, g2)
      | none => renGo (c :: acc) rest

/-- The rename-entry match `f.match(/^(.+?)\s*->\s*(.+)$/)` of
`getChangedFiles`, returning the two captured groups. -/
def splitRename (f : String) : Option (String × String) :=
  renGo [] f.data

/-- The per-rename-entry body of `getChangedFiles`: add both captures when the
regex matches, otherwise add the entry itself. -/
def addRen (files : List String) (f : String) : List String :=
  match splitRename f with
  | some ab => addToSet (addToSet files ab.1) ab.2
  | none => addToSet files f

/-- `getChangedFiles` from the commit-message module. -/
def getChangedFiles (sum : StatusSummary) (stagedOnly : Bool) : List String :=
  if stagedOnly then
    sum.samples.renamed.foldl addRen
      (addAll (addAll (addAll [] sum.samples.added) sum.samples.modified)
        sum.samples.deleted)
  else
    sum.samples.renamed.foldl addRen
      (addAll [] (sum.samples.added ++ sum.samples.modified ++
        sum.samples.deleted ++ sum.samples.untracked))

/-- Whether the first character of a line selects a recognized record kind
(`#`, `?`, `!`, `u`, `1`, `2`); any other line is skipped by `parseStatus`. -/
def recognizedHead (l : String) : Bool :=
  match l.data.head? with
  | some c => c == '#' || c == '?' || c == '!' || c == 'u' || c == '1' || c == '2'
  | none => false

/-- Spec-side description (claim C6): the staged title categories, in the fixed
order added, modified, deleted, renamed+copied. -/
def specStagedPairs (s : StatusSummary) : List (Int × String) :=
  [(s.staged.added, "added"), (s.staged.modified, "modified"),
   (s.staged.deleted, "deleted"), (s.staged.renamed + s.staged.copied, "renamed")]

/-- Spec-side description (claim C6): the non-staged title categories, in the
fixed order unstaged-modified, unstaged-deleted, untracked, conflicts. -/
def specExtraPairs (s : StatusSummary) : List (Int × String) :=
  [(s.unstaged.modified, "modified (unstaged)"),
   (s.unstaged.deleted, "deleted (unstaged)"),
   (s.untracked, "untracked"), (s.conflicts, "conflict")]

/-- Spec-side description (claim C6) of the title parts: take the staged pairs
when `includeStaged` holds and the remaining pairs when not in staged-only
mode, keep the ones with positive count, and format each as
`"<n> <label>"` with a plural `"s"` suffix exactly when the count is not 1. -/
def specTitleParts (s : StatusSummary) (o : MessageOptions) : List String :=
  (((if includeStaged s o then specStagedPairs s else []) ++
      (if o.stagedOnly then [] else specExtraPairs s)).filter
    (fun pr => decide (0 < pr.1))).map
    (fun pr => toString pr.1 ++ " " ++ pr.2 ++ (if pr.1 = 1 then "" else "s"))

/-- Spec-side description (claim C10) of a body line with no overflow
machinery: the comma-joined full sample list, with no ` (+n more)` suffix. -/
def catLinePlain (label : String) (l : List String) : List String :=
  if l.length ≠ 0 then [label ++ ": " ++ String.intercalate ", " l] else []

/-- Spec-side description (claim C10) of the body with no overflow
machinery. -/
def bodyPartsPlain (sum : StatusSummary) (opts : MessageOptions) : List String :=
  catLinePlain "added" sum.samples.added ++
  catLinePlain "modified" sum.samples.modified ++
  catLinePlain "deleted" sum.samples.deleted ++
  catLinePlain "renamed" sum.samples.renamed ++
  (if opts.stagedOnly then [] else catLinePlain "untracked" sum.samples.untracked)

/-- A whitespace-free, non-empty field of a status line (the shape of every
field git actually emits on kind-`1`/`2` lines). -/
def cleanField (f : String) : Prop :=
  f.data ≠ [] ∧ ∀ c ∈ f.data, isJsWs c = false

instance (f : String) : Decidable (cleanField f) := by
  unfold cleanField; infer_instance

/-- Join fields with single spaces (used to state claims about
whitespace-separated fields of a line). -/
def joinSp : List String → String
  | [] => ""
  | [f] => f
  | f :: rest => f ++ " " ++ joinSp rest

/-- The contribution of one `samples.renamed` entry to the changed-file set:
both regex captures when the rename pattern matches, the literal entry
otherwise. -/
def renContrib (e x : String) : Prop :=
  match splitRename e with
  | some ab => x = ab.1 ∨ x = ab.2
  | none => x = e

/-- Invariant maintained by every `parseStatus` loop iteration: the staged,
unstaged, untracked and conflict counters are non-negative, each sample
bucket is no longer than every set of counters that feeds it, and each
sample bucket respects the `MAX_FILE_SAMPLES` cap. -/
structure ParseInv (s : StatusSummary) : Prop where
  addedNN : 0 ≤ s.staged.added
  modNN : 0 ≤ s.staged.modified
  delNN : 0 ≤ s.staged.deleted
  renNN : 0 ≤ s.staged.renamed
  copNN : 0 ≤ s.staged.copied
  umodNN : 0 ≤ s.unstaged.modified
  udelNN : 0 ≤ s.unstaged.deleted
  untNN : 0 ≤ s.untracked
  confNN : 0 ≤ s.conflicts
  addedGE : (s.samples.added.length : Int) ≤ s.staged.added
  modGE : (s.samples.modified.length : Int) ≤ s.staged.modified + s.unstaged.modified
  delGE : (s.samples.deleted.length : Int) ≤ s.staged.deleted + s.unstaged.deleted
  renGE : (s.samples.renamed.length : Int) ≤ s.staged.renamed + s.staged.copied
  untGE : (s.samples.untracked.length : Int) ≤ s.untracked
  addedLen : s.samples.added.length ≤ MAX_FILE_SAMPLES
  modLen : s.samples.modified.length ≤ MAX_FILE_SAMPLES
  delLen : s.samples.deleted.length ≤ MAX_FILE_SAMPLES
  renLen : s.samples.renamed.length ≤ MAX_FILE_SAMPLES
  untLen : s.samples.untracked.length ≤ MAX_FILE_SAMPLES

/-- The summary of claim C1's counterexample: true `staged.added` counter 15
with the sample bucket already capped at 10 entries. -/
def c1sum : StatusSummary :=
  { branch := none, ahead := 0, behind := 0,
    staged := ⟨15, 0, 0, 0, 0⟩, unstaged := ⟨0, 0⟩,
    untracked := 0, conflicts := 0,
    samples := ⟨["f1", "f2", "f3", "f4", "f5", "f6", "f7", "f8", "f9", "f10"],
      [], [], [], []⟩ }

/-- The summary of claim C5's counterexample: a renamed sample written without
the `" -> "` separator but containing a bare `"->"`. -/
def c5cex : StatusSummary :=
  { branch := none, ahead := 0, behind := 0,
    staged := ⟨0, 0, 0, 0, 0⟩, unstaged := ⟨0, 0⟩,
    untracked := 0, conflicts := 0,
    samples := ⟨[], [], [], ["a->b"], []⟩ }

/-- A summary whose `samples.renamed` holds the spec's example rename entry. -/
def c5ren : StatusSummary :=
  { branch := none, ahead := 0, behind := 0,
    staged := ⟨0, 0, 0, 0, 0⟩, unstaged := ⟨0, 0⟩,
    untracked := 0, conflicts := 0,
    samples := ⟨[], [], [], ["old.js -> new.js"], []⟩ }

theorem mkData (s : String) : String.mk s.data = s := rfl

theorem strAppendNil (s : String) : s ++ "" = s :=
  String.ext (List.append_nil s.data)

theorem pushSample_length_le (l : List String) (f : String) :
    (pushSample l f).length ≤ l.length + 1 := by
  unfold pushSample; split <;> simp

theorem pushSample_length_max (l : List String) (f : String)
    (h : l.length ≤ MAX_FILE_SAMPLES) :
    (pushSample l f).length ≤ MAX_FILE_SAMPLES := by
  unfold pushSample; split
  · simp only [List.length_append, List.length_singleton]; omega
  · exact h

theorem pushSample_of_lt (l : List String) (f : String)
    (h : l.length < MAX_FILE_SAMPLES) : pushSample l f = l ++ [f] := by
  unfold pushSample; exact if_pos h

theorem parseInvTransport {s : StatusSummary} (h : ParseInv s) (t : StatusSummary)
    (hs : t.staged = s.staged) (hu : t.unstaged = s.unstaged)
    (hun : t.untracked = s.untracked) (hc : t.conflicts = s.conflicts)
    (hsa : t.samples = s.samples) : ParseInv t := by
  constructor <;> simp only [hs, hu, hun, hc, hsa] <;>
    first
      | exact h.addedNN | exact h.modNN | exact h.delNN | exact h.renNN
      | exact h.copNN | exact h.umodNN | exact h.udelNN | exact h.untNN
      | exact h.confNN | exact h.addedGE | exact h.modGE | exact h.delGE
      | exact h.renGE | exact h.untGE | exact h.addedLen | exact h.modLen
      | exact h.delLen | exact h.renLen | exact h.untLen

theorem initialInv : ParseInv initialSummary := by
  constructor <;> decide

theorem applyIndex_inv {s : StatusSummary} (ix : Char) (fp : String)
    (op : Option String) (h : ParseInv s) : ParseInv (applyIndex s ix fp op) := by
  unfold applyIndex
  split
  · exact { h with
      addedNN := by show 0 ≤ s.staged.added + 1; have := h.addedNN; omega
      addedGE := by
        show ((pushSample s.samples.added fp).length : Int) ≤ s.staged.added + 1
        have h1 := h.addedGE
        have h2 := pushSample_length_le s.samples.added fp
        omega
      addedLen := pushSample_length_max _ _ h.addedLen }
  · split
    · exact { h with
        modNN := by show 0 ≤ s.staged.modified + 1; have := h.modNN; omega
        modGE := by
          show ((pushSample s.samples.modified fp).length : Int) ≤
            s.staged.modified + 1 + s.unstaged.modified
          have h1 := h.modGE
          have h2 := pushSample_length_le s.samples.modified fp
          omega
        modLen := pushSample_length_max _ _ h.modLen }
    · split
      · exact { h with
          delNN := by show 0 ≤ s.staged.deleted + 1; have := h.delNN; omega
          delGE := by
            show ((pushSample s.samples.deleted fp).length : Int) ≤
              s.staged.deleted + 1 + s.unstaged.deleted
            have h1 := h.delGE
            have h2 := pushSample_length_le s.samples.deleted fp
            omega
          delLen := pushSample_length_max _ _ h.delLen }
      · split
        · exact { h with
            renNN := by show 0 ≤ s.staged.renamed + 1; have := h.renNN; omega
            renGE := by
              show ((pushSample s.samples.renamed (renSample op fp)).length : Int) ≤
                s.staged.renamed + 1 + s.staged.copied
              have h1 := h.renGE
              have h2 := pushSample_length_le s.samples.renamed (renSample op fp)
              omega
            renLen := pushSample_length_max _ _ h.renLen }
        · split
          · exact { h with
              copNN := by show 0 ≤ s.staged.copied + 1; have := h.copNN; omega
              renGE := by
                show ((pushSample s.samples.renamed (renSample op fp)).length : Int) ≤
                  s.staged.renamed + (s.staged.copied + 1)
                have h1 := h.renGE
                have h2 := pushSample_length_le s.samples.renamed (renSample op fp)
                omega
              renLen := pushSample_length_max _ _ h.renLen }
          · exact h

theorem applyWorktree_inv {s : StatusSummary} (wt : Char) (fp : String)
    (h : ParseInv s) : ParseInv (applyWorktree s wt fp) := by
  unfold applyWorktree
  split
  · exact { h with
      umodNN := by show 0 ≤ s.unstaged.modified + 1; have := h.umodNN; omega
      modGE := by
        show ((pushSample s.samples.modified fp).length : Int) ≤
          s.staged.modified + (s.unstaged.modified + 1)
        have h1 := h.modGE
        have h2 := pushSample_length_le s.samples.modified fp
        omega
      modLen := pushSample_length_max _ _ h.modLen }
  · split
    · exact { h with
        udelNN := by show 0 ≤ s.unstaged.deleted + 1; have := h.udelNN; omega
        delGE := by
          show ((pushSample s.samples.deleted fp).length : Int) ≤
            s.staged.deleted + (s.unstaged.deleted + 1)
          have h1 := h.delGE
          have h2 := pushSample_length_le s.samples.deleted fp
          omega
        delLen := pushSample_length_max _ _ h.delLen }
    · exact h

theorem processEntry_inv {s : StatusSummary} (type : Char) (parts : List String)
    (h : ParseInv s) : ParseInv (processEntry s type parts) := by
  unfold processEntry
  split
  · exact h
  · split
    · exact h
    · exact applyWorktree_inv _ _ (applyIndex_inv _ _ _ h)

theorem stepLine_inv {s : StatusSummary} (line : String) (h : ParseInv s) :
    ParseInv (stepLine s line) := by
  unfold stepLine
  split
  · split
    · exact parseInvTransport h _ rfl rfl rfl rfl rfl
    · split
      · split
        · exact parseInvTransport h _ rfl rfl rfl rfl rfl
        · exact h
      · exact h
  · split
    · exact h
    · split
      · exact { h with
          untNN := by show 0 ≤ s.untracked + 1; have := h.untNN; omega
          untGE := by
            show ((pushSample s.samples.untracked (jsSlice line 2)).length : Int) ≤
              s.untracked + 1
            have h1 := h.untGE
            have h2 := pushSample_length_le s.samples.untracked (jsSlice line 2)
            omega
          untLen := pushSample_length_max _ _ h.untLen }
      · split
        · exact h
        · split
          · exact { h with
              confNN := by show 0 ≤ s.conflicts + 1; have := h.confNN; omega }
          · split
            · exact processEntry_inv _ _ h
            · exact h

theorem parseStatus_inv (output : String) : ParseInv (parseStatus output) := by
  unfold parseStatus
  exact List.foldlRecOn (jsLines output) stepLine initialSummary initialInv
    (fun b hb a _ => stepLine_inv a hb)

theorem foldlSkip {α β : Type} (f : β → α → β) (p : α → Bool)
    (hf : ∀ b a, p a = false → f b a = b) :
    ∀ (l : List α) (b : β), l.foldl f b = (l.filter p).foldl f b := by
  intro l
  induction l with
  | nil => intro b; rfl
  | cons a t ih =>
    intro b
    by_cases hp : p a = true
    · rw [List.foldl_cons, List.filter_cons, if_pos hp, List.foldl_cons, ih]
    · have hpf : p a = false := by revert hp; cases p a <;> simp
      rw [List.foldl_cons, List.filter_cons, if_neg (by simp [hpf]), hf b a hpf, ih]

theorem hashHeadOfPre {l : String} (h : jsStartsWith l "# " = true) :
    l.data.head? = some '#' := by
  unfold jsStartsWith at h
  cases hd : l.data with
  | nil => rw [hd] at h; exact absurd h (by decide)
  | cons c cs =>
    rw [hd] at h
    have h2 : ('#' == c && List.isPrefixOf [' '] cs) = true := h
    have hc : '#' = c := eq_of_beq ((Bool.and_eq_true _ _).mp h2).1
    rw [List.head?_cons, ← hc]

theorem stepLine_skip (s : StatusSummary) (l : String)
    (h : recognizedHead l = false) : stepLine s l = s := by
  unfold stepLine
  have h1 : ¬ (jsStartsWith l "# " = true) := by
    intro hsw
    have hh := hashHeadOfPre hsw
    unfold recognizedHead at h
    rw [hh] at h
    simp at h
  rw [if_neg h1]
  split
  · rfl
  · rename_i c hc
    unfold recognizedHead at h
    rw [hc] at h
    simp only [Bool.or_eq_false_iff, beq_eq_false_iff_ne, ne_eq] at h
    obtain ⟨⟨⟨⟨⟨g1, g2⟩, g3⟩, g4⟩, g5⟩, g6⟩ := h
    rw [if_neg g2, if_neg g3, if_neg g4, if_neg (fun hor => hor.elim g5 g6)]

theorem catLine_eq_plain (label : String) (l : List String)
    (h : l.length ≤ MAX_FILE_SAMPLES) : catLine label l = catLinePlain label l := by
  unfold catLine catLinePlain limitList
  rw [if_neg (by omega : ¬ (MAX_FILE_SAMPLES < l.length))]
  dsimp only
  rw [if_neg (show ¬ ((0 : Nat) ≠ 0) by omega), strAppendNil]

theorem addPart_split (parts : List String) (n : Int) (label : String) :
    addPart parts n label = parts ++ (if 0 < n then [plural n label] else []) := by
  unfold addPart; split
  · rfl
  · exact (List.append_nil parts).symm

theorem addPart_chain (pairs : List (Int × String)) :
    ∀ (init : List String),
      pairs.foldl (fun ps pr => addPart ps pr.1 pr.2) init =
        init ++ (pairs.filter (fun pr => decide (0 < pr.1))).map
          (fun pr => plural pr.1 pr.2) := by
  induction pairs with
  | nil => intro init; simp
  | cons pr t ih =>
    intro init
    rw [List.foldl_cons, ih, addPart_split, List.filter_cons]
    by_cases hp : 0 < pr.1
    · rw [if_pos hp, if_pos (by simpa using hp)]
      simp [List.append_assoc]
    · rw [if_neg hp, if_neg (by simpa using hp)]
      simp

theorem titleParts_eq_spec (s : StatusSummary) (o : MessageOptions) :
    titleParts s o = specTitleParts s o := by
  have hsta :
      addPart (addPart (addPart (addPart [] s.staged.added "added")
        s.staged.modified "modified") s.staged.deleted "deleted")
        (s.staged.renamed + s.staged.copied) "renamed" =
      ((specStagedPairs s).filter (fun pr => decide (0 < pr.1))).map
        (fun pr => plural pr.1 pr.2) := by
    have h := addPart_chain (specStagedPairs s) []
    simpa [specStagedPairs, List.foldl_cons, List.foldl_nil] using h
  have hext : ∀ (p1 : List String),
      addPart (addPart (addPart (addPart p1 s.unstaged.modified "modified (unstaged)")
        s.unstaged.deleted "deleted (unstaged)") s.untracked "untracked")
        s.conflicts "conflict" =
      p1 ++ ((specExtraPairs s).filter (fun pr => decide (0 < pr.1))).map
        (fun pr => plural pr.1 pr.2) := by
    intro p1
    have h := addPart_chain (specExtraPairs s) p1
    simpa [specExtraPairs, List.foldl_cons, List.foldl_nil] using h
  unfold titleParts specTitleParts
  by_cases ho : o.stagedOnly
  · have hinc : includeStaged s o = true := by simp [includeStaged, ho]
    simp [ho, hinc, hsta, plural]
  · have hof : o.stagedOnly = false := by revert ho; cases o.stagedOnly <;> simp
    by_cases hi : includeStaged s o = true
    · simp [hof, hi, hsta, hext, List.filter_append, List.map_append, plural]
    · have hif : includeStaged s o = false := by
        revert hi; cases includeStaged s o <;> simp
      simp [hof, hif, hext, List.filter_append, List.map_append, plural]

theorem mem_addToSet {x f : String} {l : List String} :
    x ∈ addToSet l f ↔ x ∈ l ∨ x = f := by
  unfold addToSet; split
  · constructor
    · exact Or.inl
    · rintro (hx | rfl)
      · exact hx
      · assumption
  · simp

theorem nodup_addToSet {f : String} {l : List String} (h : l.Nodup) :
    (addToSet l f).Nodup := by
  unfold addToSet; split
  · exact h
  · rename_i hf
    rw [List.nodup_append]
    refine ⟨h, List.nodup_singleton f, ?_⟩
    intro a ha hb
    rw [List.mem_singleton] at hb
    subst hb
    exact hf ha

theorem mem_addAll {x : String} (fs : List String) : ∀ (l : List String),
    x ∈ addAll l fs ↔ x ∈ l ∨ x ∈ fs := by
  induction fs with
  | nil => intro l; simp [addAll]
  | cons a t ih =>
    intro l
    rw [addAll, List.foldl_cons]
    have h2 := ih (addToSet l a)
    rw [addAll] at h2
    rw [h2, mem_addToSet]
    simp [or_assoc, List.mem_cons]

theorem nodup_addAll (fs : List String) : ∀ (l : List String), l.Nodup →
    (addAll l fs).Nodup := by
  induction fs with
  | nil => intro l h; exact h
  | cons a t ih =>
    intro l h
    rw [addAll, List.foldl_cons]
    exact ih (addToSet l a) (nodup_addToSet h)

theorem mem_addRen {x : String} (l : List String) (e : String) :
    x ∈ addRen l e ↔ x ∈ l ∨ renContrib e x := by
  unfold addRen renContrib
  cases h : splitRename e
  · simp [mem_addToSet]
  · simp [mem_addToSet, or_assoc]

theorem mem_renFold {x : String} (lst : List String) : ∀ (l : List String),
    x ∈ lst.foldl addRen l ↔ x ∈ l ∨ ∃ e ∈ lst, renContrib e x := by
  induction lst with
  | nil => intro l; simp
  | cons a t ih =>
    intro l
    rw [List.foldl_cons, ih, mem_addRen]
    simp [or_assoc]

theorem nodup_renFold (lst : List String) : ∀ (l : List String), l.Nodup →
    (lst.foldl addRen l).Nodup := by
  induction lst with
  | nil => intro l h; exact h
  | cons a t ih =>
    intro l h
    rw [List.foldl_cons]
    refine ih _ ?_
    unfold addRen
    cases splitRename a
    · exact nodup_addToSet h
    · exact nodup_addToSet (nodup_addToSet h)

theorem mem_getChangedFiles (s : StatusSummary) (so : Bool) (x : String) :
    x ∈ getChangedFiles s so ↔
      ((x ∈ s.samples.added ∨ x ∈ s.samples.modified ∨ x ∈ s.samples.deleted ∨
        (so = false ∧ x ∈ s.samples.untracked)) ∨
       ∃ e ∈ s.samples.renamed, renContrib e x) := by
  cases so
  · unfold getChangedFiles
    rw [if_neg (by simp)]
    simp [mem_renFold, mem_addAll, or_assoc]
  · unfold getChangedFiles
    rw [if_pos rfl]
    simp [mem_renFold, mem_addAll, or_assoc]

theorem nodup_getChangedFiles (s : StatusSummary) (so : Bool) :
    (getChangedFiles s so).Nodup := by
  unfold getChangedFiles; split
  · exact nodup_renFold _ _
      (nodup_addAll _ _ (nodup_addAll _ _ (nodup_addAll _ _ List.nodup_nil)))
  · exact nodup_renFold _ _ (nodup_addAll _ _ List.nodup_nil)

theorem splitWsGo_clean (t : List Char) (h : ∀ c ∈ t, isJsWs c = false) :
    ∀ (rest acc : List Char),
      splitWsGo (t ++ rest) acc = splitWsGo rest (t.reverse ++ acc) := by
  induction t with
  | nil => intro rest acc; simp
  | cons a u ih =>
    intro rest acc
    have ha : isJsWs a = false := h a (List.mem_cons_self a u)
    show splitWsGo (a :: (u ++ rest)) acc = _
    rw [splitWsGo, ha]
    simp only [Bool.false_eq_true, if_false]
    rw [ih (fun c hc => h c (List.mem_cons_of_mem a hc))]
    simp [List.append_assoc]

theorem splitWsGo_space (rest acc : List Char) :
    splitWsGo (' ' :: rest) acc = String.mk acc.reverse :: splitWsSkip rest := by
  rw [splitWsGo]
  rfl

theorem splitWsSkip_nonws {c : Char} (h : isJsWs c = false) (cs : List Char) :
    splitWsSkip (c :: cs) = splitWsGo cs [c] := by
  rw [splitWsSkip, h]
  rfl

theorem splitWsGo_start {c : Char} (h : isJsWs c = false) (cs : List Char) :
    splitWsGo (c :: cs) [] = splitWsGo cs [c] := by
  rw [splitWsGo, h]
  rfl

theorem joinSp_cons_data (g : String) (gs : List String) :
    ∃ r, (joinSp (g :: gs)).data = g.data ++ r := by
  cases gs with
  | nil => exact ⟨[], (List.append_nil g.data).symm⟩
  | cons g2 t =>
    refine ⟨' ' :: (joinSp (g2 :: t)).data, ?_⟩
    show (g.data ++ [' ']) ++ (joinSp (g2 :: t)).data = _
    rw [List.append_assoc]
    rfl

theorem jsSplitWs_joinSp : ∀ (fs : List String), fs ≠ [] →
    (∀ f ∈ fs, cleanField f) → jsSplitWs (joinSp fs) = fs := by
  intro fs
  induction fs with
  | nil => intro h; exact absurd rfl h
  | cons f gs ih =>
    intro _ hclean
    obtain ⟨hf1, hf2⟩ := hclean f (List.mem_cons_self f gs)
    cases gs with
    | nil =>
      show splitWsGo (joinSp [f]).data [] = [f]
      rw [show joinSp [f] = f from rfl]
      have hcl := splitWsGo_clean f.data hf2 [] []
      rw [List.append_nil] at hcl
      rw [hcl]
      simp [splitWsGo, mkData]
    | cons g gs2 =>
      have hjoin : (joinSp (f :: g :: gs2)).data =
          f.data ++ (' ' :: (joinSp (g :: gs2)).data) := by
        show (f.data ++ [' ']) ++ (joinSp (g :: gs2)).data = _
        rw [List.append_assoc]
        rfl
      show splitWsGo (joinSp (f :: g :: gs2)).data [] = _
      rw [hjoin, splitWsGo_clean f.data hf2, splitWsGo_space]
      obtain ⟨r, hr⟩ := joinSp_cons_data g gs2
      obtain ⟨hg1, hg2⟩ := hclean g (by simp)
      cases hgd : g.data with
      | nil => exact absurd hgd hg1
      | cons c t =>
        have hc : isJsWs c = false := hg2 c (by rw [hgd]; exact List.mem_cons_self c t)
        rw [hr, hgd]
        rw [show ((c :: t) ++ r) = c :: (t ++ r) from rfl, splitWsSkip_nonws hc]
        have hih := ih (by simp) (fun x hx => hclean x (List.mem_cons_of_mem f hx))
        unfold jsSplitWs at hih
        rw [hr, hgd] at hih
        rw [show splitWsGo ((c :: t) ++ r) [] = splitWsGo (c :: (t ++ r)) [] from rfl,
          splitWsGo_start hc] at hih
        rw [hih]
        simp [mkData]

theorem applyWorktree_renamed (s : StatusSummary) (wt : Char) (fp : String) :
    (applyWorktree s wt fp).samples.renamed = s.samples.renamed := by
  unfold applyWorktree
  split
  · rfl
  · split <;> rfl

theorem applyWorktree_added (s : StatusSummary) (wt : Char) (fp : String) :
    (applyWorktree s wt fp).samples.added = s.samples.added := by
  unfold applyWorktree
  split
  · rfl
  · split <;> rfl

theorem getD_len (pre : List String) (o p : String) :
    (pre ++ [o, p]).getD pre.length "" = o := by
  induction pre with
  | nil => rfl
  | cons a t ih => simpa using ih

theorem getLastD_pair (pre : List String) (o p : String) :
    (pre ++ [o, p]).getLastD "" = p := by
  have h : pre ++ [o, p] = (pre ++ [o]) ++ [p] := by simp
  rw [h, List.getLastD_concat]

theorem processEntry_two (s : StatusSummary) (xy o p : String) (mid : List String)
    (hxy : 2 ≤ xy.data.length) :
    processEntry s '2' ("2" :: xy :: (mid ++ [o, p])) =
      applyWorktree (applyIndex s (xy.data.getD 0 ' ') p (some o))
        (xy.data.getD 1 ' ') p := by
  have hlen : (("2" : String) :: xy :: (mid ++ [o, p])).length = mid.length + 4 := by
    simp
  have hget : ((("2" : String) :: xy :: (mid ++ [o, p])).getD 1 "") = xy := rfl
  have hxl : xy.length = xy.data.length := rfl
  have hlast : ((("2" : String) :: xy :: (mid ++ [o, p])).getLastD "") = p := by
    show (("2" : String) :: (xy :: (mid ++ [o, p]))).getLastD "" = p
    have h2 : ("2" : String) :: (xy :: (mid ++ [o, p])) =
        (("2" : String) :: xy :: mid) ++ [o, p] := by simp
    rw [h2, getLastD_pair]
  have hmid : ((("2" : String) :: xy :: (mid ++ [o, p])).getD
      ((("2" : String) :: xy :: (mid ++ [o, p])).length - 2) "") = o := by
    rw [hlen]
    have h2 : ("2" : String) :: (xy :: (mid ++ [o, p])) =
        (("2" : String) :: xy :: mid) ++ [o, p] := by simp
    have h3 : mid.length + 4 - 2 = (("2" : String) :: xy :: mid).length := by simp
    rw [h2, h3, getD_len]
  unfold processEntry
  rw [if_neg (by rw [hlen]; omega), if_neg (by rw [hget, hxl]; omega), hget, hlast,
    if_pos ⟨rfl, by rw [hlen]; omega⟩, hmid]

theorem processEntry_one (s : StatusSummary) (xy p : String) (mid : List String)
    (hxy : 2 ≤ xy.data.length) :
    processEntry s '1' ("1" :: xy :: (mid ++ [p])) =
      applyWorktree (applyIndex s (xy.data.getD 0 ' ') p none)
        (xy.data.getD 1 ' ') p := by
  have hlen : (("1" : String) :: xy :: (mid ++ [p])).length = mid.length + 3 := by
    simp
  have hget : ((("1" : String) :: xy :: (mid ++ [p])).getD 1 "") = xy := rfl
  have hxl : xy.length = xy.data.length := rfl
  have hlast : ((("1" : String) :: xy :: (mid ++ [p])).getLastD "") = p := by
    have h2 : ("1" : String) :: (xy :: (mid ++ [p])) =
        (("1" : String) :: xy :: mid) ++ [p] := by simp
    show (("1" : String) :: (xy :: (mid ++ [p]))).getLastD "" = p
    rw [h2, List.getLastD_concat]
  unfold processEntry
  rw [if_neg (by rw [hlen]; omega), if_neg (by rw [hget, hxl]; omega), hget, hlast,
    if_neg (fun hand => absurd hand.1 (by decide))]

theorem processEntry_two_pair (s : StatusSummary) (xy : String)
    (hxy : 2 ≤ xy.data.length) :
    processEntry s '2' ["2", xy] =
      applyWorktree (applyIndex s (xy.data.getD 0 ' ') xy none)
        (xy.data.getD 1 ' ') xy := by
  have hxl : xy.length = xy.data.length := rfl
  unfold processEntry
  rw [if_neg (by simp), if_neg (by show ¬ (xy.length < 2); rw [hxl]; omega),
    if_neg (fun hand => by simp at hand)]
  rfl

theorem processEntry_two_triple (s : StatusSummary) (xy p : String)
    (hxy : 2 ≤ xy.data.length) :
    processEntry s '2' ["2", xy, p] =
      applyWorktree (applyIndex s (xy.data.getD 0 ' ') p (some xy))
        (xy.data.getD 1 ' ') p := by
  have hxl : xy.length = xy.data.length := rfl
  unfold processEntry
  rw [if_neg (by simp), if_neg (by show ¬ (xy.length < 2); rw [hxl]; omega),
    if_pos ⟨rfl, by simp⟩]
  rfl

theorem joinSp_head2 (rest : List String) :
    (joinSp (("2" : String) :: rest)).data.head? = some '2' := by
  cases rest <;> rfl

theorem joinSp_head1 (rest : List String) :
    (joinSp (("1" : String) :: rest)).data.head? = some '1' := by
  cases rest <;> rfl

theorem stepLine_kind (s : StatusSummary) (line : String) (t : Char)
    (hd : line.data.head? = some t) (ht : t = '1' ∨ t = '2') :
    stepLine s line = processEntry s t (jsSplitWs line) := by
  unfold stepLine
  have h1 : ¬ (jsStartsWith line "# " = true) := by
    intro hsw
    have hh := hashHeadOfPre hsw
    rw [hd] at hh
    injection hh with hh
    rcases ht with rfl | rfl <;> exact absurd hh (by decide)
  rw [if_neg h1]
  split
  · rename_i h0
    rw [hd] at h0
    exact absurd h0 (by simp)
  · rename_i c h0
    rw [hd] at h0
    injection h0 with h0
    subst h0
    rcases ht with rfl | rfl
    · rw [if_neg (by decide), if_neg (by decide), if_neg (by decide),
        if_pos (Or.inl rfl)]
    · rw [if_neg (by decide), if_neg (by decide), if_neg (by decide),
        if_pos (Or.inr rfl)]

theorem applyIndex_R (s : StatusSummary) (fp : String) (op : Option String) :
    (applyIndex s 'R' fp op).samples.renamed =
      pushSample s.samples.renamed (renSample op fp) := by
  unfold applyIndex
  rw [if_neg (by decide), if_neg (by decide), if_neg (by decide), if_pos rfl]

theorem applyIndex_A (s : StatusSummary) (fp : String) (op : Option String) :
    (applyIndex s 'A' fp op).samples.added = pushSample s.samples.added fp := by
  unfold applyIndex
  rw [if_pos rfl]

/-- Claim C1, counterexample.  The claim says that a category whose true
counter (here `staged.added = 15`) exceeds the sample cap 10 gets a body line
ending in `" (+5 more)"`.  In the code `limitList` is applied to the sample
list, whose length is 10, so no overflow suffix is produced at all. -/
theorem claim_C1_counterexample :
    (10 : Int) < 15 ∧
    buildSimpleMessage c1sum {} =
      "15 addeds\n\nadded: f1, f2, f3, f4, f5, f6, f7, f8, f9, f10" ∧
    ("(+5 more)".data.isSuffixOf (buildSimpleMessage c1sum {}).data) = false := by
  refine ⟨by decide, by decide, by decide⟩

/-- Claim C1, amended.  The overflow suffix of a body line is governed by the
length of the sample list, not by the true counter: when a sample list is
longer than `MAX_FILE_SAMPLES` the line shows the first 10 samples and ends in
`" (+<length - 10> more)"`, and when the list is within the cap (as every
parser-produced list is) no suffix is emitted. -/
theorem claim_C1_amended (label : String) (l : List String) :
    (MAX_FILE_SAMPLES < l.length →
      catLine label l =
        [label ++ ": " ++ String.intercalate ", " (l.take MAX_FILE_SAMPLES) ++
          (" (+" ++ toString (l.length - MAX_FILE_SAMPLES) ++ " more)")]) ∧
    (l.length ≠ 0 → l.length ≤ MAX_FILE_SAMPLES →
      catLine label l = [label ++ ": " ++ String.intercalate ", " l]) := by
  have h10 : MAX_FILE_SAMPLES = 10 := rfl
  constructor
  · intro h
    unfold catLine limitList
    rw [if_pos h]
    dsimp only
    rw [if_pos (show (l.take MAX_FILE_SAMPLES).length ≠ 0 by
        rw [List.length_take]; omega),
      if_pos (show l.length - MAX_FILE_SAMPLES ≠ 0 by omega)]
  · intro h1 h2
    unfold catLine limitList
    rw [if_neg ((by omega) : ¬ (MAX_FILE_SAMPLES < l.length))]
    dsimp only
    rw [if_pos h1, if_neg (show ¬ ((0 : Nat) ≠ 0) by omega), strAppendNil]

/-- Witness for the amended claim C1 at concrete sample lists of lengths 11
and 2. -/
theorem claim_C1_witness :
    catLine "added" ["a", "b", "c", "d", "e", "f", "g", "h", "i", "j", "k"] =
      ["added: a, b, c, d, e, f, g, h, i, j (+1 more)"] ∧
    catLine "added" ["a", "b"] = ["added: a, b"] :=
  ⟨(claim_C1_amended "added"
      ["a", "b", "c", "d", "e", "f", "g", "h", "i", "j", "k"]).1 (by decide),
   (claim_C1_amended "added" ["a", "b"]).2 (by decide) (by decide)⟩

/-- Claim C2, counterexample.  Parsing `"# branch.head main\n"` does set the
branch, so `buildSimpleMessage` appends the branch suffix and the result is
not exactly `"no changes"`. -/
theorem claim_C2_counterexample :
    buildSimpleMessage (parseStatus "# branch.head main\n") {} ≠ "no changes" := by
  decide

/-- Claim C2, amended.  Parsing `"# branch.head main\n"` yields
`branch = some "main"` with every counter 0 and every sample list empty, and
`buildSimpleMessage` renders the zero-change title with the branch suffix:
exactly `"no changes — on main"` (not the bare `"no changes"`). -/
theorem claim_C2_branch_suffix :
    parseStatus "# branch.head main\n" =
      { branch := some "main", ahead := 0, behind := 0,
        staged := ⟨0, 0, 0, 0, 0⟩, unstaged := ⟨0, 0⟩,
        untracked := 0, conflicts := 0, samples := ⟨[], [], [], [], []⟩ } ∧
    buildSimpleMessage (parseStatus "# branch.head main\n") {} =
      "no changes — on main" := by
  refine ⟨by decide, by decide⟩

/-- Claim C3, counterexample.  On the input
`"# branch.ab +-2 -1\n1 .M x f"` the parser stores `ahead = -2` (the regex
capture `(-?\d+)` accepts a doubled sign), and the shared `samples.modified`
bucket receives an entry from the worktree `M` status while `staged.modified`
stays 0, so `staged.modified ≥ |samples.modified|` fails. -/
theorem claim_C3_counterexample :
    (parseStatus "# branch.ab +-2 -1\n1 .M x f").ahead = -2 ∧
    (parseStatus "# branch.ab +-2 -1\n1 .M x f").staged.modified = 0 ∧
    (parseStatus "# branch.ab +-2 -1\n1 .M x f").samples.modified.length = 1 := by
  refine ⟨by decide, by decide, by decide⟩

/-- Claim C3, amended.  For every input, the staged, unstaged, untracked and
conflict counters are non-negative (`ahead`/`behind` may be negative on
adversarial doubled-sign input), and each sample bucket is bounded by the sum
of the counters that feed it: `added` by `staged.added`, the shared `modified`
bucket by `staged.modified + unstaged.modified`, the shared `deleted` bucket
by `staged.deleted + unstaged.deleted`, the shared `renamed` bucket by
`staged.renamed + staged.copied`, and `untracked` by the untracked counter. -/
theorem claim_C3_amended (output : String) :
    (0 ≤ (parseStatus output).staged.added ∧
     0 ≤ (parseStatus output).staged.modified ∧
     0 ≤ (parseStatus output).staged.deleted ∧
     0 ≤ (parseStatus output).staged.renamed ∧
     0 ≤ (parseStatus output).staged.copied ∧
     0 ≤ (parseStatus output).unstaged.modified ∧
     0 ≤ (parseStatus output).unstaged.deleted ∧
     0 ≤ (parseStatus output).untracked ∧
     0 ≤ (parseStatus output).conflicts) ∧
    ((parseStatus output).samples.added.length : Int) ≤
      (parseStatus output).staged.added ∧
    ((parseStatus output).samples.modified.length : Int) ≤
      (parseStatus output).staged.modified + (parseStatus output).unstaged.modified ∧
    ((parseStatus output).samples.deleted.length : Int) ≤
      (parseStatus output).staged.deleted + (parseStatus output).unstaged.deleted ∧
    ((parseStatus output).samples.renamed.length : Int) ≤
      (parseStatus output).staged.renamed + (parseStatus output).staged.copied ∧
    ((parseStatus output).samples.untracked.length : Int) ≤
      (parseStatus output).untracked := by
  have h := parseStatus_inv output
  exact ⟨⟨h.addedNN, h.modNN, h.delNN, h.renNN, h.copNN, h.umodNN, h.udelNN,
    h.untNN, h.confNN⟩, h.addedGE, h.modGE, h.delGE, h.renGE, h.untGE⟩

/-- Claim C4, counterexample.  The line `"# branch.ab +2 --3"` matches the
regex `/\+(-?\d+)\s+\-(-?\d+)/` with second capture `"-3"`, so the parser sets
`behind = -3`: neither the absolute value 3 nor the untouched prior value 0
that the claim allows. -/
theorem claim_C4_counterexample :
    (parseStatus "# branch.ab +2 --3").ahead = 2 ∧
    (parseStatus "# branch.ab +2 --3").behind = -3 ∧
    (parseStatus "# branch.ab +2 --3").behind < 0 := by
  refine ⟨by decide, by decide, by decide⟩

theorem startsWithAbPre (rest : String) :
    jsStartsWith ("# branch.ab " ++ rest) "# branch.ab " = true := by
  show List.isPrefixOf ['#', ' ', 'b', 'r', 'a', 'n', 'c', 'h', '.', 'a', 'b', ' ']
    ('#' :: ' ' :: 'b' :: 'r' :: 'a' :: 'n' :: 'c' :: 'h' :: '.' :: 'a' :: 'b' :: ' '
      :: rest.data) = true
  simp [List.isPrefixOf]

/-- Claim C4, amended.  A `"# branch.ab "` line sets `ahead` to the first
capture and `behind` to the second capture of `/\+(-?\d+)\s+\-(-?\d+)/` run on
the trimmed remainder (the second capture follows the literal `-`, so on
git-format input `+a -b` it equals the absolute value of the behind count); a
non-matching remainder leaves both at their prior values; in particular
`"# branch.ab +2 -1"` yields `ahead = 2` and `behind = 1`. -/
theorem claim_C4_amended :
    ((parseStatus "# branch.ab +2 -1\n").ahead = 2 ∧
     (parseStatus "# branch.ab +2 -1\n").behind = 1) ∧
    (∀ (s : StatusSummary) (rest : String),
      searchAb (jsTrim rest).data = none →
        stepLine s ("# branch.ab " ++ rest) = s) ∧
    (∀ (s : StatusSummary) (rest : String) (a b : Int),
      searchAb (jsTrim rest).data = some (a, b) →
        stepLine s ("# branch.ab " ++ rest) = { s with ahead := a, behind := b }) := by
  refine ⟨⟨by decide, by decide⟩, ?_, ?_⟩
  · intro s rest hn
    have e2 : jsStartsWith ("# branch.ab " ++ rest) "# branch.head " = false := rfl
    unfold stepLine
    rw [if_pos (show jsStartsWith ("# branch.ab " ++ rest) "# " = true from rfl),
      if_neg (by simp [e2]), if_pos (startsWithAbPre rest),
      show jsSlice ("# branch.ab " ++ rest) 12 = rest from rfl, hn]
  · intro s rest a b hs
    have e2 : jsStartsWith ("# branch.ab " ++ rest) "# branch.head " = false := rfl
    unfold stepLine
    rw [if_pos (show jsStartsWith ("# branch.ab " ++ rest) "# " = true from rfl),
      if_neg (by simp [e2]), if_pos (startsWithAbPre rest),
      show jsSlice ("# branch.ab " ++ rest) 12 = rest from rfl, hs]

/-- Witness for the amended claim C4: a non-matching remainder leaves the
summary unchanged, and `"+2 -1"` sets `ahead = 2`, `behind = 1`. -/
theorem claim_C4_witness :
    stepLine initialSummary ("# branch.ab " ++ "nonsense") = initialSummary ∧
    stepLine initialSummary ("# branch.ab " ++ "+2 -1") =
      { initialSummary with ahead := 2, behind := 1 } :=
  ⟨claim_C4_amended.2.1 initialSummary "nonsense" (by decide),
   claim_C4_amended.2.2 initialSummary "+2 -1" 2 1 (by decide)⟩

/-- Claim C5, counterexample.  The entry `"a->b"` lacks the `" -> "` separator,
so the claim requires it to be added as a single literal path; but the regex
`/^(.+?)\s*->\s*(.+)$/` has optional whitespace around `->` and splits it into
`"a"` and `"b"`, and `"a->b"` itself is not in the result. -/
theorem claim_C5_counterexample :
    getChangedFiles c5cex true = ["a", "b"] ∧
    "a->b" ∉ getChangedFiles c5cex true := by
  refine ⟨by decide, by decide⟩

/-- Claim C5, amended.  `getChangedFiles` returns a de-duplicated set: every
`samples.renamed` entry matching the rename pattern `/^(.+?)\s*->\s*(.+)$/`
(in particular every entry containing `" -> "`) contributes both captured
sides, an entry not matching that pattern (not merely one lacking `" -> "`)
is added as a single literal path, the result has no duplicates, membership
is invariant under permuting any sample bucket, and on the spec's example both
`"old.js"` and `"new.js"` are in the result. -/
theorem claim_C5_amended :
    (∀ (s : StatusSummary) (so : Bool) (e a b : String), e ∈ s.samples.renamed →
      splitRename e = some (a, b) →
        a ∈ getChangedFiles s so ∧ b ∈ getChangedFiles s so) ∧
    (∀ (s : StatusSummary) (so : Bool) (e : String), e ∈ s.samples.renamed →
      splitRename e = none → e ∈ getChangedFiles s so) ∧
    (∀ (s : StatusSummary) (so : Bool), (getChangedFiles s so).Nodup) ∧
    (∀ (s t : StatusSummary) (so : Bool),
      List.Perm s.samples.added t.samples.added →
      List.Perm s.samples.modified t.samples.modified →
      List.Perm s.samples.deleted t.samples.deleted →
      List.Perm s.samples.renamed t.samples.renamed →
      List.Perm s.samples.untracked t.samples.untracked →
      ∀ x, x ∈ getChangedFiles s so ↔ x ∈ getChangedFiles t so) ∧
    ("old.js" ∈ getChangedFiles c5ren true ∧
     "new.js" ∈ getChangedFiles c5ren true) := by
  refine ⟨?_, ?_, nodup_getChangedFiles, ?_, by decide, by decide⟩
  · intro s so e a b he hsp
    refine ⟨?_, ?_⟩
    · rw [mem_getChangedFiles]
      exact Or.inr ⟨e, he, by simp [renContrib, hsp]⟩
    · rw [mem_getChangedFiles]
      exact Or.inr ⟨e, he, by simp [renContrib, hsp]⟩
  · intro s so e he hsp
    rw [mem_getChangedFiles]
    exact Or.inr ⟨e, he, by simp [renContrib, hsp]⟩
  · intro s t so h1 h2 h3 h4 h5 x
    rw [mem_getChangedFiles, mem_getChangedFiles]
    simp only [h1.mem_iff, h2.mem_iff, h3.mem_iff, h4.mem_iff, h5.mem_iff]

/-- Witness for the amended claim C5: both sides of the example rename are in
the set, a pattern-free entry is kept literally, and permuting a sample bucket
does not change membership. -/
theorem claim_C5_witness :
    ("old.js" ∈ getChangedFiles c5ren false ∧
     "new.js" ∈ getChangedFiles c5ren false) ∧
    "ab" ∈ getChangedFiles
      ⟨none, 0, 0, ⟨0, 0, 0, 0, 0⟩, ⟨0, 0⟩, 0, 0, ⟨[], [], [], ["ab"], []⟩⟩ true ∧
    (∀ x, x ∈ getChangedFiles
        ⟨none, 0, 0, ⟨0, 0, 0, 0, 0⟩, ⟨0, 0⟩, 0, 0, ⟨["x", "y"], [], [], [], []⟩⟩ true ↔
      x ∈ getChangedFiles
        ⟨none, 0, 0, ⟨0, 0, 0, 0, 0⟩, ⟨0, 0⟩, 0, 0, ⟨["y", "x"], [], [], [], []⟩⟩ true) :=
  ⟨claim_C5_amended.1 c5ren false "old.js -> new.js" "old.js" "new.js"
      (by decide) (by decide),
   claim_C5_amended.2.1 _ true "ab" (by decide) (by decide),
   claim_C5_amended.2.2.2.1 _ _ true (by decide) (by decide) (by decide)
      (by decide) (by decide)⟩

/-- Claim C6.  For every summary and options, the title core equals the
spec-side description: take the staged categories (added, modified, deleted,
renamed+copied combined) when `includeStaged` holds, then the unstaged,
untracked and conflict categories when not staged-only, keep those with a
positive count, format each as `"<n> <label>"` with a plural `s` suffix
exactly when the count is not 1, join with `", "`, and fall back to the
literal `"no changes"` when no part was collected. -/
theorem claim_C6_title (s : StatusSummary) (o : MessageOptions) :
    titleCore s o =
      (if specTitleParts s o = [] then "no changes"
       else String.intercalate ", " (specTitleParts s o)) := by
  unfold titleCore
  rw [titleParts_eq_spec]
  cases h : specTitleParts s o with
  | nil => simp
  | cons a t => simp

/-- Claim C7.  `parseStatus` is total by construction (it is a plain function
on strings folding `stepLine` over the lines), and a line whose first
character selects no recognized record kind contributes nothing: folding only
over the recognized lines yields the same summary for every input. -/
theorem claim_C7_total_skip (output : String) :
    parseStatus output =
      ((jsLines output).filter recognizedHead).foldl stepLine initialSummary := by
  unfold parseStatus
  exact foldlSkip stepLine recognizedHead stepLine_skip (jsLines output)
    initialSummary

/-- Claim C8.  On a kind-`1`/`2` line built from whitespace-free fields, the
last field is the recorded current path; a kind-`2` line with at least three
fields records the second-to-last field as the original path and stores the
renamed sample as `"orig -> new"` (for exactly three fields the second-to-last
field is the `XY` field itself); a kind-`2` line with only two fields records
no original path and stores the current path alone. -/
theorem claim_C8_paths :
    (∀ (s : StatusSummary) (xy o p : String) (mid : List String),
      (∀ f ∈ ("2" : String) :: xy :: (mid ++ [o, p]), cleanField f) →
      2 ≤ xy.data.length → xy.data.getD 0 ' ' = 'R' →
      s.samples.renamed.length < MAX_FILE_SAMPLES →
      (stepLine s (joinSp (("2" : String) :: xy :: (mid ++ [o, p])))).samples.renamed =
        s.samples.renamed ++ [o ++ " -> " ++ p]) ∧
    (∀ (s : StatusSummary) (xy p : String) (mid : List String),
      (∀ f ∈ ("1" : String) :: xy :: (mid ++ [p]), cleanField f) →
      2 ≤ xy.data.length → xy.data.getD 0 ' ' = 'A' →
      s.samples.added.length < MAX_FILE_SAMPLES →
      (stepLine s (joinSp (("1" : String) :: xy :: (mid ++ [p])))).samples.added =
        s.samples.added ++ [p]) ∧
    (∀ (s : StatusSummary) (xy p : String),
      cleanField xy → cleanField p → 2 ≤ xy.data.length →
      xy.data.getD 0 ' ' = 'R' → s.samples.renamed.length < MAX_FILE_SAMPLES →
      (stepLine s (joinSp ["2", xy, p])).samples.renamed =
        s.samples.renamed ++ [xy ++ " -> " ++ p]) ∧
    (∀ (s : StatusSummary) (xy : String),
      cleanField xy → 2 ≤ xy.data.length → xy.data.getD 0 ' ' = 'R' →
      s.samples.renamed.length < MAX_FILE_SAMPLES →
      (stepLine s (joinSp ["2", xy])).samples.renamed =
        s.samples.renamed ++ [xy]) := by
  refine ⟨?_, ?_, ?_, ?_⟩
  · intro s xy o p mid hclean hxy hR hcap
    rw [stepLine_kind s _ '2' (joinSp_head2 _) (Or.inr rfl),
      jsSplitWs_joinSp _ (by simp) hclean, processEntry_two s xy o p mid hxy,
      applyWorktree_renamed, hR, applyIndex_R, pushSample_of_lt _ _ hcap]
    rfl
  · intro s xy p mid hclean hxy hA hcap
    rw [stepLine_kind s _ '1' (joinSp_head1 _) (Or.inl rfl),
      jsSplitWs_joinSp _ (by simp) hclean, processEntry_one s xy p mid hxy,
      applyWorktree_added, hA, applyIndex_A, pushSample_of_lt _ _ hcap]
  · intro s xy p hxyc hpc hxy hR hcap
    have hclean : ∀ f ∈ (["2", xy, p] : List String), cleanField f := by
      intro f hf
      simp only [List.mem_cons, List.not_mem_nil, or_false] at hf
      rcases hf with rfl | rfl | rfl
      · decide
      · exact hxyc
      · exact hpc
    rw [stepLine_kind s _ '2' (joinSp_head2 _) (Or.inr rfl),
      jsSplitWs_joinSp _ (by simp) hclean, processEntry_two_triple s xy p hxy,
      applyWorktree_renamed, hR, applyIndex_R, pushSample_of_lt _ _ hcap]
    rfl
  · intro s xy hxyc hxy hR hcap
    have hclean : ∀ f ∈ (["2", xy] : List String), cleanField f := by
      intro f hf
      simp only [List.mem_cons, List.not_mem_nil, or_false] at hf
      rcases hf with rfl | rfl
      · decide
      · exact hxyc
    rw [stepLine_kind s _ '2' (joinSp_head2 _) (Or.inr rfl),
      jsSplitWs_joinSp _ (by simp) hclean, processEntry_two_pair s xy hxy,
      applyWorktree_renamed, hR, applyIndex_R, pushSample_of_lt _ _ hcap]
    rfl

/-- Witness for claim C8 at the concrete lines `"2 R. a b"`, `"1 A. f.txt"`,
`"2 R. b"` and `"2 R."`. -/
theorem claim_C8_witness :
    (stepLine initialSummary "2 R. a b").samples.renamed = ["a -> b"] ∧
    (stepLine initialSummary "1 A. f.txt").samples.added = ["f.txt"] ∧
    (stepLine initialSummary "2 R. b").samples.renamed = ["R. -> b"] ∧
    (stepLine initialSummary "2 R.").samples.renamed = ["R."] :=
  ⟨claim_C8_paths.1 initialSummary "R." "a" "b" [] (by decide) (by decide)
      (by decide) (by decide),
   claim_C8_paths.2.1 initialSummary "A." "f.txt" [] (by decide) (by decide)
      (by decide) (by decide),
   claim_C8_paths.2.2.1 initialSummary "R." "b" (by decide) (by decide)
      (by decide) (by decide) (by decide),
   claim_C8_paths.2.2.2 initialSummary "R." (by decide) (by decide) (by decide)
      (by decide)⟩

/-- Claim C9.  The embedded `parseStatus` and `buildSimpleMessage` are pure
deterministic functions: equal inputs yield structurally equal outputs (the
shallow embedding is a total function of its arguments alone, mirroring that
the source reads no global state in either function). -/
theorem claim_C9_deterministic :
    (∀ t1 t2 : String, t1 = t2 → parseStatus t1 = parseStatus t2) ∧
    (∀ (s1 s2 : StatusSummary) (o1 o2 : MessageOptions),
      s1 = s2 → o1 = o2 → buildSimpleMessage s1 o1 = buildSimpleMessage s2 o2) :=
  ⟨fun _ _ h => congrArg parseStatus h,
   fun _ _ _ _ hs ho => by rw [hs, ho]⟩

/-- Witness for claim C9 at a concrete input. -/
theorem claim_C9_witness :
    parseStatus "? a\n" = parseStatus "? a\n" ∧
    buildSimpleMessage initialSummary {} = buildSimpleMessage initialSummary {} :=
  ⟨claim_C9_deterministic.1 "? a\n" "? a\n" rfl,
   claim_C9_deterministic.2 initialSummary initialSummary {} {} rfl rfl⟩

/-- Claim C10.  Every sample list of a parser-produced summary has length at
most `MAX_FILE_SAMPLES` (10), and consequently `buildSimpleMessage` never
emits the `" (+n more)"` overflow suffix on such a summary: its body equals
the overflow-free body, because the overflow computation looks at sample-list
lengths rather than at the true counters. -/
theorem claim_C10_no_overflow (output : String) (opts : MessageOptions) :
    ((parseStatus output).samples.added.length ≤ MAX_FILE_SAMPLES ∧
     (parseStatus output).samples.modified.length ≤ MAX_FILE_SAMPLES ∧
     (parseStatus output).samples.deleted.length ≤ MAX_FILE_SAMPLES ∧
     (parseStatus output).samples.renamed.length ≤ MAX_FILE_SAMPLES ∧
     (parseStatus output).samples.untracked.length ≤ MAX_FILE_SAMPLES) ∧
    bodyParts (parseStatus output) opts = bodyPartsPlain (parseStatus output) opts := by
  have h := parseStatus_inv output
  refine ⟨⟨h.addedLen, h.modLen, h.delLen, h.renLen, h.untLen⟩, ?_⟩
  unfold bodyParts bodyPartsPlain
  rw [catLine_eq_plain _ _ h.addedLen, catLine_eq_plain _ _ h.modLen,
    catLine_eq_plain _ _ h.delLen, catLine_eq_plain _ _ h.renLen]
  by_cases ho : opts.stagedOnly
  · rw [if_pos ho, if_pos ho]
  · rw [if_neg ho, if_neg ho, catLine_eq_plain _ _ h.untLen]

end Gcm
